import Mathlib

/-!
# Verification of the transaction_parser repository

Shallow embedding of the pure parsing core of the repository
(`cathay_tw_trade_parser.py`, `cathay_us_trade_parser.py`,
`schwab_trade_parser.py`) and proofs about the claims C1 .. C10.

Conventions of the embedding:
* Python floats are modelled as rationals (`ℚ`); all arithmetic that the
  source performs on parsed numbers is exact on the inputs that occur here.
* Fallible parsing returns `Option`; Python `None` is `none`.
* Python strings are Lean `String`s; Python `str.split()` (split on
  whitespace runs) is `pySplit`; `str.strip()` is `pyStrip`.
* Python regular expressions are embedded for the concrete patterns the
  source uses, specialised to the anchored token structure those patterns
  have (the patterns contain no constructs whose backtracking could cross a
  whitespace boundary, so matching decomposes over whitespace tokens).
* Python's `\w` (Unicode word character) is modelled by `pyWordChar`:
  ASCII alphanumerics, underscore, and any non-ASCII, non-whitespace
  character.  This is exact for the ASCII and CJK-letter data these
  documents contain.
-/

attribute [local semireducible] Rat.add Rat.mul Rat.inv Rat.sub Rat.ofScientific

namespace TxParser

/-- Python `\w` word character, restricted to the character repertoire of
these documents (ASCII plus CJK letters). -/
def pyWordChar (c : Char) : Bool :=
  (('a' ≤ c && c ≤ 'z') || ('A' ≤ c && c ≤ 'Z') || c.isDigit || c = '_'
    || (0x80 ≤ c.toNat && !c.isWhitespace))

/-- Whitespace as used by Python `str.split`/`str.strip` on these inputs. -/
def pySpace (c : Char) : Bool := c.isWhitespace

/-- Python `str.split()` : split on whitespace runs, dropping empties. -/
def pySplitAux : List Char → List Char → List String
  | acc, [] => if acc.isEmpty then [] else [String.mk acc.reverse]
  | acc, c :: cs =>
    if pySpace c then
      if acc.isEmpty then pySplitAux [] cs
      else String.mk acc.reverse :: pySplitAux [] cs
    else pySplitAux (c :: acc) cs

def pySplit (s : String) : List String := pySplitAux [] s.toList

/-- Python `str.strip()`. -/
def pyStrip (s : String) : String :=
  String.mk ((s.toList.dropWhile pySpace).reverse.dropWhile pySpace).reverse

/-- ASCII upper-casing, Python `str.upper()` on the ASCII repertoire. -/
def pyUpper (s : String) : String := String.mk (s.toList.map Char.toUpper)

/-- Value of a digit list, most significant first. -/
def digitsVal : List Char → Nat
  | [] => 0
  | c :: cs => digitsVal cs + c.toNat.sub 48 * 10 ^ cs.length

/-- Python `int(s)` on an optionally-signed digit string (the only shapes
this repository feeds it). -/
def pyInt? (s : String) : Option Int :=
  match s.toList with
  | [] => none
  | '-' :: ds => if ds ≠ [] && ds.all Char.isDigit then some (-(digitsVal ds : Int)) else none
  | '+' :: ds => if ds ≠ [] && ds.all Char.isDigit then some (digitsVal ds : Int) else none
  | ds => if ds.all Char.isDigit then some (digitsVal ds : Int) else none

/-- Fraction part: value of digits after the decimal point, as a rational. -/
def fracVal (ds : List Char) : ℚ := (digitsVal ds : ℚ) / (10 ^ ds.length : ℚ)

/-- Python `float(s)` on decimal literals `[sign] digits [. digits]` /
`[sign] . digits` (exponent forms, `inf`/`nan` and embedded underscores do
not occur in these documents and are treated as unparseable). -/
def pyFloatCore : List Char → Option ℚ
  | cs =>
    let ip := cs.takeWhile Char.isDigit
    let rest := cs.drop ip.length
    match rest with
    | [] => if ip.isEmpty then none else some (digitsVal ip : ℚ)
    | '.' :: fs =>
      if fs.all Char.isDigit && !(ip.isEmpty && fs.isEmpty) then
        some ((digitsVal ip : ℚ) + fracVal fs)
      else none
    | _ => none

def pyFloat? (s : String) : Option ℚ :=
  match s.toList with
  | '-' :: cs => (pyFloatCore cs).map (fun q => -q)
  | '+' :: cs => pyFloatCore cs
  | cs => pyFloatCore cs

/-- Remove every occurrence (left to right, non-overlapping) of the
two-character pattern `a b`; Python `s.replace(ab, "")`. -/
def remove2 (a b : Char) : List Char → List Char
  | [] => []
  | [c] => [c]
  | c :: d :: cs =>
    if c = a ∧ d = b then remove2 a b cs
    else c :: remove2 a b (d :: cs)

/-- Remove every occurrence of a single character; Python `s.replace(c,"")`. -/
def remove1 (a : Char) (cs : List Char) : List Char := cs.filter (· ≠ a)

/-- Banker's rounding of a rational to the nearest integer
(Python `round` semantics on exactly-representable values). -/
def roundHalfEven (q : ℚ) : Int :=
  let f : Int := ⌊q⌋
  let r : ℚ := q - (f : ℚ)
  if r < 1/2 then f
  else if 1/2 < r then f + 1
  else if f % 2 = 0 then f else f + 1

/-- Python `round(x, 2)`. -/
def roundTo2 (q : ℚ) : ℚ := (roundHalfEven (q * 100) : ℚ) / 100

/-! ## Schwab `_to_money` (schwab_trade_parser.py lines 387-405) -/

/-- Embeds `SchwabTradeParser._to_money`: strip; `N/A` ↦ 0.0; a value wrapped in
parentheses is negative; all occurrences of `CR`, `DR`, `$`, `,` are
removed; then `float`, with failure giving `none`. -/
def toMoney (s : String) : Option ℚ :=
  let t := pyStrip s
  if pyUpper t = "N/A" then some 0
  else
    let cs := t.toList
    let neg : Bool := decide (cs.take 1 = ['('] ∧ cs.reverse.take 1 = [')'])
    let cs := if neg then (cs.drop 1).reverse.drop 1 |>.reverse else cs
    let cs := remove2 'C' 'R' cs
    let cs := remove2 'D' 'R' cs
    let cs := remove1 '$' cs
    let cs := remove1 ',' cs
    let t2 := pyStrip (String.mk cs)
    match pyFloat? t2 with
    | some v => some (if neg then -v else v)
    | none => none

/-- Embeds `SchwabTradeParser._to_num` (lines 407-421): like `_to_money` but only
parentheses and commas are handled. -/
def toNumSchwab (s : String) : Option ℚ :=
  let cs := (pyStrip s).toList
  let neg : Bool := decide (cs.take 1 = ['('] ∧ cs.reverse.take 1 = [')'])
  let cs := if neg then (cs.drop 1).reverse.drop 1 |>.reverse else cs
  let cs := remove1 ',' cs
  match pyFloat? (String.mk cs) with
  | some v => some (if neg then -v else v)
  | none => none

/-! ## Dates: Python `strptime` on `%m/%d/%y` / `%m/%d/%Y` and `strftime("%Y/%m/%d")`
(used by `_normalize_date`, lines 424-439, and `_to_occ_symbol`, lines 343-370). -/

def isLeap (y : Nat) : Bool := y % 4 = 0 && (y % 100 ≠ 0 || y % 400 = 0)

def daysInMonth (y m : Nat) : Nat :=
  if m = 2 then (if isLeap y then 29 else 28)
  else if m = 4 ∨ m = 6 ∨ m = 9 ∨ m = 11 then 30
  else 31

/-- Embeds `datetime(y, m, d)` construction succeeds (month is already 1..12 at
call sites; years in this repository stay far below `datetime.MAXYEAR`). -/
def validYMD (y m d : Nat) : Bool := 1 ≤ y && 1 ≤ d && d ≤ daysInMonth y m

/-- Split on `'/'`, keeping empty pieces (regex segmentation of the
`strptime` directives, none of which can match a `'/'`). -/
def splitSlash : List Char → List (List Char)
  | [] => [[]]
  | c :: cs =>
    if c = '/' then [] :: splitSlash cs
    else match splitSlash cs with
      | p :: ps => (c :: p) :: ps
      | [] => [[c]]

/-- Python `_strptime` month directive `%m`: `1[0-2]|0[1-9]|[1-9]`. -/
def monthPiece (p : List Char) : Option Nat :=
  if p.all Char.isDigit ∧ 1 ≤ p.length ∧ p.length ≤ 2 ∧
      1 ≤ digitsVal p ∧ digitsVal p ≤ 12 then some (digitsVal p) else none

/-- Python `_strptime` day directive `%d`: `3[01]|[12]\d|0[1-9]|[1-9]`. -/
def dayPiece (p : List Char) : Option Nat :=
  if p.all Char.isDigit ∧ 1 ≤ p.length ∧ p.length ≤ 2 ∧
      1 ≤ digitsVal p ∧ digitsVal p ≤ 31 then some (digitsVal p) else none

/-- Embeds `%y` two-digit year with Python's 1969/2068 pivot. -/
def pivot2 (n : Nat) : Nat := if n ≤ 68 then 2000 + n else 1900 + n

/-- Embeds `datetime.strptime(s, "%m/%d/%y")` (full-string match, pivot applied,
`datetime` construction validated).  Returns `(m, d, year)`. -/
def strptime2 (s : String) : Option (Nat × Nat × Nat) :=
  match splitSlash s.toList with
  | [pm, pd, py] =>
    match monthPiece pm, dayPiece pd with
    | some m, some d =>
      if py.length = 2 ∧ py.all Char.isDigit then
        let y := pivot2 (digitsVal py)
        if validYMD y m d then some (m, d, y) else none
      else none
    | _, _ => none
  | _ => none

/-- Embeds `datetime.strptime(s, "%m/%d/%Y")` (full-string match, 4-digit year). -/
def strptime4 (s : String) : Option (Nat × Nat × Nat) :=
  match splitSlash s.toList with
  | [pm, pd, py] =>
    match monthPiece pm, dayPiece pd with
    | some m, some d =>
      if py.length = 4 ∧ py.all Char.isDigit then
        if validYMD (digitsVal py) m d then some (m, d, digitsVal py) else none
      else none
    | _, _ => none
  | _ => none

/-- Decimal digits of `n`, zero-padded on the left to width `w`. -/
def padNum (w n : Nat) : String :=
  let s := toString n
  String.mk (List.replicate (w - s.length) '0') ++ s

/-- Embeds `dt.strftime("%Y/%m/%d")`. -/
def renderYMD (y m d : Nat) : String :=
  padNum 4 y ++ "/" ++ padNum 2 m ++ "/" ++ padNum 2 d

/-- One iteration of the `_normalize_date` format loop: on a successful
parse, apply the century fix (`dt.replace(year=dt.year+100)` for years
below 2000 — which itself raises, failing this format, when the shifted
date is invalid) and render. -/
def normDateFromParse : Option (Nat × Nat × Nat) → Option String
  | none => none
  | some (m, d, y) =>
    if y < 2000 then
      if validYMD (y + 100) m d then some (renderYMD (y + 100) m d) else none
    else some (renderYMD y m d)

/-- Embeds `SchwabTradeParser._normalize_date` on a non-empty string
(lines 424-439): strip the input (`s = s.strip()`, line 430), then try
`%m/%d/%y` and `%m/%d/%Y`; unparseable input is returned as the
*stripped* string. -/
def normalizeDate (s : String) : String :=
  let t := pyStrip s
  match normDateFromParse (strptime2 t) with
  | some r => r
  | none =>
    match normDateFromParse (strptime4 t) with
    | some r => r
    | none => t

/-- Embeds `_normalize_date` including the `if not s: return None` guard. -/
def normalizeDateOpt : Option String → Option String
  | none => none
  | some s => if s = "" then none else some (normalizeDate s)

/-! ## Schwab symbol normalization (`_normalize_symbol` lines 372-385,
`_to_occ_symbol` lines 343-370). -/

/-- A character of the option-root class `[A-Z0-9.\-]` under `re.I`. -/
def rootChar (c : Char) : Bool :=
  ('A' ≤ c && c ≤ 'Z') || ('a' ≤ c && c ≤ 'z') || c.isDigit || c = '.' || c = '-'

/-- Full match of the expiry sub-pattern `\d{1,2}/\d{1,2}/\d{2,4}`. -/
def expShape (s : String) : Bool :=
  match splitSlash s.toList with
  | [a, b, c] =>
    a.all Char.isDigit && decide (1 ≤ a.length ∧ a.length ≤ 2) &&
    b.all Char.isDigit && decide (1 ≤ b.length ∧ b.length ≤ 2) &&
    c.all Char.isDigit && decide (2 ≤ c.length ∧ c.length ≤ 4)
  | _ => false

def commaNumChar (c : Char) : Bool := c.isDigit || c = ','

/-- Full match of the strike sub-pattern `[\d,]+(?:\.\d{1,4})?`. -/
def strikeShape (s : String) : Bool :=
  let cs := s.toList
  let a := cs.takeWhile commaNumChar
  let rest := cs.drop a.length
  !a.isEmpty &&
    (match rest with
     | [] => true
     | '.' :: f => f.all Char.isDigit && decide (1 ≤ f.length ∧ f.length ≤ 4)
     | _ => false)

/-- Embeds `SchwabTradeParser._to_occ_symbol`: root + `yymmdd` + C/P +
8-digit thousandths strike; `none` when the expiry fails both date formats
or the strike fails `float` conversion. -/
def toOccSymbol (root exp cp strike : String) : Option String :=
  let dt? := match strptime4 exp with
    | some r => some r
    | none => strptime2 exp
  match dt? with
  | none => none
  | some (m, d, y) =>
    let yymmdd := padNum 2 (y % 100) ++ padNum 2 m ++ padNum 2 d
    match pyFloat? (String.mk (remove1 ',' strike.toList)) with
    | none => none
    | some q =>
      let strikeThou := roundHalfEven (q * 1000)
      let cpCh := match (pyUpper cp).toList with
        | c :: _ => String.mk [c]
        | [] => ""
      some (pyUpper root ++ yymmdd ++ cpCh ++ padNum 8 strikeThou.toNat)

/-- Embeds `SchwabTradeParser._normalize_symbol`: recognise
`ROOT EXPIRY STRIKE C|P` (whitespace-normalised, `re.I`) and build the
OCC-style symbol, otherwise return the raw string unchanged. -/
def normalizeSymbol (raw : String) : String :=
  match pySplit raw with
  | [root, exp, strike, cp] =>
    if root ≠ "" && root.toList.all rootChar && expShape exp && strikeShape strike &&
        (cp = "C" || cp = "P" || cp = "c" || cp = "p") then
      match toOccSymbol root exp cp strike with
      | some occ => occ
      | none => raw
    else raw
  | _ => raw

/-! ## Word-boundary (`\b`) machinery for the embedded regexes. -/

/-- Is there a `\b` word boundary inside or at the end of the nonempty
group `p`, given the word-character status `afterW` of the character that
follows `p` (end of string counts as non-word)?  Used for patterns of the
form `<class>+\b`, where the greedy group may end at any interior
position exhibiting a word/non-word transition. -/
def anyBoundary (afterW : Bool) : List Char → Bool
  | [] => false
  | [c] => pyWordChar c != afterW
  | c :: d :: rest => (pyWordChar c != pyWordChar d) || anyBoundary afterW (d :: rest)

/-- Does `[\d,]+\b` match at the start of token `t` (token followed by
whitespace or end of line, i.e. non-word)?  This is the tax column of the
Cathay-TW trade-row pattern. -/
def taxAccept (t : String) : Bool :=
  let cs := t.toList
  let p := cs.takeWhile commaNumChar
  let rest := cs.drop p.length
  !p.isEmpty && anyBoundary (match rest with
    | [] => false
    | r :: _ => pyWordChar r) p

/-- Embeds `^\d{8}\b` (Cathay-US record-reference anchor, line 103). -/
def usRefLine (s : String) : Bool :=
  let cs := s.toList
  (cs.take 8).length = 8 && (cs.take 8).all Char.isDigit &&
    (match cs.drop 8 with
     | [] => true
     | c :: _ => !pyWordChar c)

/-! ## The canonical trade record (common JSON schema of the three parsers). -/

/-- One canonical trade record.  Nullable numeric fields are `Option ℚ`;
`date` is `Option String` because the Cathay-US projector can store a
Python `None` there (`SettlementDate` key present with value `None`). -/
structure TradeRec where
  symbol : String
  trade_type : String
  currency : String
  shares : Option ℚ
  price : Option ℚ
  fee : Option ℚ
  date : Option String
  total : Option ℚ
deriving DecidableEq

/-! ## Cathay-TW extractor (`cathay_tw_trade_parser.py`). -/

/-- Embeds `CathayTWTradeParser._to_num` (lines 211-223): strip commas and
whitespace, then Python `float` when a decimal point is present, else
Python `int`. -/
def toNumTW (s : String) : Option ℚ :=
  let t := pyStrip (String.mk (remove1 ',' s.toList))
  if t.toList.contains '.' then pyFloat? t
  else (pyInt? t).map (fun i => (i : ℚ))

/-- Embeds `CathayUSTradeParser._to_num` (lines 214-224): strip commas and
whitespace, then Python `float`. -/
def toNumUS (s : String) : Option ℚ :=
  pyFloat? (pyStrip (String.mk (remove1 ',' s.toList)))

/-- Full match of `[\d,]+` (shares / amount / fee columns). -/
def commaNum (s : String) : Bool := !s.isEmpty && s.toList.all commaNumChar

/-- Full match of `[\d,]+(?:\.\d+)?` (the price column). -/
def priceShape (s : String) : Bool :=
  let cs := s.toList
  let a := cs.takeWhile commaNumChar
  let rest := cs.drop a.length
  !a.isEmpty &&
    (match rest with
     | [] => true
     | '.' :: f => !f.isEmpty && f.all Char.isDigit
     | _ => false)

/-- The Cathay-TW trade-row pattern (line 103-105):
`^(?P<name>\S+)\s+(?P<tt>\S+)\s+(?P<shares>[\d,]+)\s+(?P<price>[\d,]+(?:\.\d+)?)\s+(?P<amt>[\d,]+)\s+(?P<fee>[\d,]+)\s+(?P<tax>[\d,]+)\b`.
Anchored at the line start; `\S+`/`\s+` alternation makes each group a
full whitespace-separated token, except the tax group, which is a prefix
of token 7 ending at a word boundary.  Returns
`(name, tt, shares, price, fee)` (the amount and tax captures are not
used by the caller). -/
def matchTradeRowTW (s : String) : Option (String × String × String × String × String) :=
  match s.toList with
  | [] => none
  | c :: _ =>
    if pySpace c then none
    else match pySplit s with
      | name :: tt :: sh :: pr :: amt :: fee :: tax :: _ =>
        if commaNum sh && priceShape pr && commaNum amt && commaNum fee && taxAccept tax then
          some (name, tt, sh, pr, fee)
        else none
      | _ => none

/-- Names of summary rows that are filtered out (line 111). -/
def summaryNames : List String := ["總合計", "買進總計：", "賣出總計："]

/-- Embeds `CathayTWTradeParser.TRADETYPE_MAP` (lines 25-32). -/
def twTradeType : String → Option String
  | "買進" => some "buy"
  | "集買" => some "buy"
  | "現股買進" => some "buy"
  | "賣出" => some "sell"
  | "集賣" => some "sell"
  | "現股賣出" => some "sell"
  | _ => none

/-- The receivable/payable lookahead pattern `^\s*(?P<num>-?[\d,]+)\s*$`
together with the `num != "0"` filter (lines 125-126): the whole line is
an optionally-signed comma-grouped number (surrounded by whitespace),
whose text differs from `"0"`.  Returns the captured number text. -/
def standaloneNum (s : String) : Option String :=
  let cs := s.toList.dropWhile pySpace
  let (sign, body0) := match cs with
    | '-' :: rest => ("-", rest)
    | rest => ("", rest)
  let num := body0.takeWhile commaNumChar
  let rest := body0.drop num.length
  if num.isEmpty ∨ ¬ rest.all pySpace then none
  else
    let g := sign ++ String.mk num
    if g = "0" then none else some g

/-- Symbol resolution of the Cathay-TW parser (lines 131-135): map the
name through the extracted code map, then append `.TW` to 4-digit codes. -/
def resolveSymbolTW (cmap : List (String × String)) (name : String) : String :=
  let sym := match cmap.find? (fun p => p.1 = name) with
    | some p => p.2
    | none => name
  if sym.length = 4 ∧ sym.toList.all Char.isDigit then sym ++ ".TW" else sym

/-- Record construction for an accepted Cathay-TW row (lines 131-147):
emitted only when shares, price and the receivable/payable total all
resolved. -/
def emitTW (cmap : List (String × String)) (sdate : Option String)
    (name ttype : String) (sh pr fee : String) (rp : Option ℚ) : List TradeRec :=
  match toNumTW sh, toNumTW pr, rp with
  | some shares, some price, some total =>
    [{ symbol := resolveSymbolTW cmap name, trade_type := ttype,
       currency := "TWD", shares := some shares, price := some price,
       fee := toNumTW fee, date := some (sdate.getD ""), total := some total }]
  | _, _, _ => []

/-- Classification of one line by the head of the Cathay-TW scan loop
(lines 103-116): either it is skipped (no trade-row match, summary name,
or unmapped trade-type token), or it is an accepted trade row. -/
inductive TWStep where
  | skip : TWStep
  | row (name ttype sh pr fee : String) : TWStep
deriving DecidableEq

def classifyTW (s : String) : TWStep :=
  match matchTradeRowTW s with
  | none => .skip
  | some (name, tt, sh, pr, fee) =>
    if name ∈ summaryNames then .skip
    else
      match twTradeType tt with
      | none => .skip
      | some ttype => .row name ttype sh pr fee

/-- The receivable/payable lookahead of lines 122-129: examine up to the
next three lines for the first standalone non-zero number.  Returns the
captured number text (if any) and the continuation of the outer scan
(`i += k` on a hit, so the matched line is consumed together with the
non-matching lines before it; everything kept on a miss). -/
def rpLook : List String → Option String × List String
  | [] => (none, [])
  | l1 :: r1 =>
    match standaloneNum l1 with
    | some n1 => (some n1, r1)
    | none =>
      match r1 with
      | [] => (none, [l1])
      | l2 :: r2 =>
        match standaloneNum l2 with
        | some n2 => (some n2, r2)
        | none =>
          match r2 with
          | [] => (none, [l1, l2])
          | l3 :: r3 =>
            match standaloneNum l3 with
            | some n3 => (some n3, r3)
            | none => (none, l1 :: l2 :: l3 :: r3)

/-- Fuelled worker for the main scan of
`CathayTWTradeParser._parse_single_pdf` (lines 98-152).  The fuel is only
a structural-termination device; `parseLinesTW` supplies `ls.length`,
which is always sufficient. -/
def parseLinesTWAux (cmap : List (String × String)) (sdate : Option String) :
    Nat → List String → List TradeRec
  | 0, _ => []
  | _ + 1, [] => []
  | fuel + 1, s :: rest =>
    match classifyTW s with
    | .skip => parseLinesTWAux cmap sdate fuel rest
    | .row name ttype sh pr fee =>
      let rp := rpLook rest
      emitTW cmap sdate name ttype sh pr fee (rp.1.bind toNumTW) ++
        parseLinesTWAux cmap sdate fuel rp.2

/-- The main scan of `CathayTWTradeParser._parse_single_pdf`
(lines 98-152) over the reconstructed line sequence: match trade rows,
filter summary rows and unrecognised trade types, look ahead up to three
lines for the first standalone non-zero number (consuming the matched
line), and emit a record when shares, price and that total all resolve. -/
def parseLinesTW (cmap : List (String × String)) (sdate : Option String)
    (ls : List String) : List TradeRec :=
  parseLinesTWAux cmap sdate ls.length ls

/-- Substring containment (Python `pat in s`). -/
def subAt : List Char → List Char → Bool
  | _, [] => true
  | [], _ :: _ => false
  | c :: cs, p :: ps => (c = p && subAt cs ps) -- prefix check helper

def hasSub : List Char → List Char → Bool
  | _, [] => true
  | [], _ :: _ => false
  | c :: cs, pat => subAt (c :: cs) pat || hasSub cs pat

def strHasSub (s pat : String) : Bool := hasSub s.toList pat.toList

/-- Is there a word-boundary-terminated nonempty name at the start of
token `t` (`\S+\b` with greedy backtracking)?  Returns the longest such
name. -/
def nameMatchTW (t : String) : Option String :=
  let cs := t.toList
  let ws := cs.map pyWordChar
  match (List.range cs.length).reverse.find?
      (fun i => ws.getD i false != ws.getD (i + 1) false) with
  | some i => some (String.mk (cs.take (i + 1)))
  | none => none

/-- One code-mapping row: `^(?P<code>\d{4})\s+(?P<name>\S+)\b`
(line 206). -/
def codeMapRow (s : String) : Option (String × String) :=
  let cs := s.toList
  let code := cs.take 4
  if code.length = 4 && code.all Char.isDigit then
    match cs.drop 4 with
    | c :: rest =>
      if pySpace c then
        let tok := ((c :: rest).dropWhile pySpace).takeWhile (fun ch => !pySpace ch)
        match nameMatchTW (String.mk tok) with
        | some name => some (String.mk code, name)
        | none => none
      else none
    | [] => none
  else none

/-- Embeds `CathayTWTradeParser._extract_code_mapping` (lines 191-209): scan for
the `代碼 股票名稱` header, then collect `code name` rows until a blank
line or footer marker; later assignments shadow earlier ones. -/
def extractCodeMappingAux : List String → Bool → List (String × String) →
    List (String × String)
  | [], _, acc => acc
  | s :: rest, inBlock, acc =>
    if strHasSub s "代碼" && strHasSub s "股票名稱" then
      extractCodeMappingAux rest true acc
    else if inBlock then
      if pyStrip s = "" || strHasSub s "集保市值總計" || strHasSub s "理財資訊" then acc
      else match codeMapRow s with
        | some (code, name) => extractCodeMappingAux rest true ((name, code) :: acc)
        | none => extractCodeMappingAux rest true acc
    else extractCodeMappingAux rest false acc

def extractCodeMapping (lines : List String) : List (String × String) :=
  extractCodeMappingAux lines false []

/-! ## Cathay-US extractor (`cathay_us_trade_parser.py`). -/

/-- Raw row-A fields (`_parse_rowA`, lines 118-146).  `none` throughout
models the `A = {}` case where the reference regex fails. -/
structure USRawA where
  product : Option String
  currency : Option String
  price : Option String
  arp : Option String
deriving DecidableEq

/-- Raw row-B fields (`_parse_rowB`, lines 148-166).  The settlement date
is `Option` because the Python dict stores `None` when no date token is
found. -/
structure USRawB where
  market : String
  tradeType : String
  settlementDate : Option String
  shares : String
  amount : String
  handlingFee : String
deriving DecidableEq

def usCurrencies : List String := ["USD", "TWD"]

/-- Keep the part of `x` before the first `/`
(`x.split("/", 1)[0] if "/" in x else x`). -/
def beforeSlash (s : String) : String := String.mk (s.toList.takeWhile (· ≠ '/'))

def joinSpace : List String → String
  | [] => ""
  | [s] => s
  | s :: rest => s ++ " " ++ joinSpace rest

/-- Embeds `CathayUSTradeParser._parse_rowA`: split off the 8-digit reference,
locate the *last* token equal to a known 3-letter currency, and read
price and receivable/payable positionally after it; everything before it
is the product, truncated at the first `/`. -/
def parseRowA (s : String) : USRawA :=
  let cs := s.toList
  if h8 : (cs.take 8).length = 8 ∧ (cs.take 8).all Char.isDigit then
    match cs.drop 8 with
    | [] => ⟨none, none, none, none⟩
    | c :: cr =>
      if pySpace c then
        -- `\s+` then `.+`: the rest group starts after the whitespace run,
        -- except that a fully-blank tail backtracks to keep its last char.
        let restCs :=
          match (c :: cr).dropWhile pySpace with
          | [] => [(c :: cr).getLast (by simp)]
          | r => r
        let rest := String.mk restCs
        let toks := pySplit rest
        match (List.range toks.length).reverse.find?
            (fun i => toks.getD i "" ∈ usCurrencies) with
        | none => ⟨some (beforeSlash rest), none, none, none⟩
        | some i =>
          ⟨some (beforeSlash (joinSpace (toks.take i))),
           some (toks.getD i ""), some (toks.getD (i + 1) ""),
           some (toks.getD (i + 2) "")⟩
      else ⟨none, none, none, none⟩
  else ⟨none, none, none, none⟩

/-- Full match of `-?[\d,]+(?:\.\d+)?` (numeric tokens of rows B/C). -/
def usNumShape (s : String) : Bool :=
  match s.toList with
  | '-' :: rest => priceShape (String.mk rest)
  | _ => priceShape s

/-- Full match of `\d{4}/\d{2}/\d{2}`. -/
def usDateShape (s : String) : Bool :=
  match splitSlash s.toList with
  | [a, b, c] =>
    a.all Char.isDigit && a.length = 4 && b.all Char.isDigit && b.length = 2 &&
      c.all Char.isDigit && c.length = 2
  | _ => false

/-- Embeds `CathayUSTradeParser._parse_rowB`. -/
def parseRowB (s : String) : USRawB :=
  let toks := pySplit s
  let nums := toks.filter usNumShape
  { market := toks.getD 0 ""
    tradeType := toks.getD 1 ""
    settlementDate := toks.reverse.find? usDateShape
    shares := nums.getD 0 ""
    amount := nums.getD 1 ""
    handlingFee := nums.getD 2 "" }

/-- Embeds `CathayUSTradeParser.TRADETYPE_MAP` (line 13). -/
def usTradeType : String → Option String
  | "買進" => some "buy"
  | "賣出" => some "sell"
  | "除息" => some "dividend"
  | _ => none

/-- Embeds `CathayUSTradeParser._project_row` (lines 178-190) on the merged
dictionary of row A and (when the following line exists) row B.  Missing
keys default exactly as `dict.get` does in the source; note that the
record is built unconditionally — no field is required to resolve. -/
def projectRowUS (A : USRawA) (B? : Option USRawB) : TradeRec :=
  let tt := match B? with
    | some B => B.tradeType
    | none => ""
  { symbol := A.product.getD ""
    trade_type := (usTradeType tt).getD tt
    currency := A.currency.getD ""
    shares := (B?.map USRawB.shares).bind toNumUS
    price := A.price.bind toNumUS
    fee := (B?.map USRawB.handlingFee).bind toNumUS
    date := match B? with
      | none => some ""
      | some B => B.settlementDate
    total := A.arp.bind toNumUS }

/-- The record-group scan of `CathayUSTradeParser._parse_page`
(lines 101-115) over the clustered region lines: each line matching
`^\d{8}\b` starts a fixed 3-line group (row C is parsed but discarded by
the source); the scan advances by 3 lines on a match, else by 1.  The
Python `[r for r in recs if r]` filter never drops anything because
`_project_row` always returns a non-empty dict. -/
def parsePageUS : List String → List TradeRec
  | [] => []
  | s :: rest =>
    if usRefLine s then
      match rest with
      | b :: _ :: r => projectRowUS (parseRowA s) (some (parseRowB b)) :: parsePageUS r
      | [b] => [projectRowUS (parseRowA s) (some (parseRowB b))]
      | [] => [projectRowUS (parseRowA s) none]
    else parsePageUS rest

/-! ## Schwab extractor (`schwab_trade_parser.py` `_parse_body`,
lines 156-247). -/

/-- Case-insensitive match of word `w` at the head of `cs`. -/
def ciStarts : List Char → List Char → Bool
  | _, [] => true
  | [], _ :: _ => false
  | c :: cs, w :: ws => c.toLower = w.toLower && ciStarts cs ws

/-- Does one of the vocabulary words match at the head of `cs` with a
trailing `\b` (all vocabulary words start and end with letters)? -/
def wordHit (cs w : List Char) : Bool :=
  ciStarts cs w &&
    (match cs.drop w.length with
     | [] => true
     | d :: _ => !pyWordChar d)

/-- Embeds `re.search(r"\b(w₁|w₂|…)\b", s, re.I).start()`: position of the first
match of any vocabulary word with word boundaries. -/
def scanWords (ws : List (List Char)) : Bool → List Char → Option Nat
  | _, [] => none
  | prevW, c :: cs =>
    if !prevW && ws.any (wordHit (c :: cs)) then some 0
    else (scanWords ws (pyWordChar c) cs).map (· + 1)

def searchWordPos (ws : List (List Char)) (s : String) : Option Nat :=
  scanWords ws false s.toList

def buyVocab : List (List Char) := ["Purchase".toList, "Buy".toList, "Bought".toList]
def sellVocab : List (List Char) := ["Sale".toList, "Sell".toList, "Sold".toList]

/-- Action detection of lines 187-197: nearer match wins, sell wins
ties. -/
def detectAction (w : String) : Option String :=
  match searchWordPos buyVocab w, searchWordPos sellVocab w with
  | some p, some q => some (if q ≤ p then "sell" else "buy")
  | none, some _ => some "sell"
  | some _, none => some "buy"
  | none, none => none

def pyLower (s : String) : String := String.mk (s.toList.map Char.toLower)

/-- Fee resolution, lines 206-215: prefer the charge-column fee, else
derive `round(abs(total) - abs(principal), 2)` when both are known. -/
def schwabFee (feeBlock principal total : Option ℚ) : Option ℚ :=
  match feeBlock with
  | some f => some f
  | none =>
    match principal, total with
    | some p, some t => some (roundTo2 (|t| - |p|))
    | _, _ => none

/-- Amount derivation, lines 218-227: the parsed total when present, else
principal minus fee for sells and principal plus fee otherwise. -/
def schwabAmountRaw (action : Option String) (principal total fee : Option ℚ) :
    Option ℚ :=
  match total with
  | some t => some t
  | none =>
    match principal with
    | some p =>
      let effFee := fee.getD 0
      if pyLower (action.getD "") = "sell" then some (roundTo2 (p - effFee))
      else some (roundTo2 (p + effFee))
    | none => none

/-- Cash-sign normalisation, lines 228-233: force buys negative and
sells positive (skipped when the action is unknown). -/
def schwabSignNorm (amount : Option ℚ) (action : Option String) : Option ℚ :=
  match amount, action with
  | some a, some act =>
    if act ≠ "" then
      if pyLower act = "buy" ∧ 0 < a then some (-a)
      else if pyLower act = "sell" ∧ a < 0 then some (-a)
      else some a
    else some a
  | a, _ => a

/-- The per-window record construction of `_parse_body`, lines 184 and
203-245, as a function of the raw symbol capture and the extraction
results for the window (action, quantity, price, principal,
charge-column fee, total, and the two date captures).  Returns `none`
when the gate `sym and qty and price and (total or principal)` fails. -/
def schwabBuildRecord (rawSym : String) (action : Option String)
    (qty price principal feeBlock total : Option ℚ)
    (tradeDate settleDate : Option String) : Option TradeRec :=
  let sym := normalizeSymbol rawSym
  let fee := schwabFee feeBlock principal total
  if sym ≠ "" ∧ qty.isSome ∧ price.isSome ∧ (total.isSome ∨ principal.isSome) then
    some { symbol := sym
           trade_type := action.getD ""
           currency := "USD"
           shares := qty
           price := price
           fee := some (fee.getD 0)
           date := some ((normalizeDateOpt settleDate).getD
             ((normalizeDateOpt tradeDate).getD ""))
           total := schwabSignNorm (schwabAmountRaw action principal total fee) action }
  else none

/-! ## Word clusterer (`cathay_tw_trade_parser.py` `_extract_lines`
lines 155-178 and `cathay_us_trade_parser.py` `_cluster_rows`
lines 193-212). -/

/-- One positioned text fragment (a `pdfplumber` word dict:
`text`, `top`, `x0`). -/
structure Frag where
  text : String
  top : ℚ
  x0 : ℚ
deriving DecidableEq

/-- One row being built: running-mean vertical position `y`, member count
`n`, members in arrival order. -/
structure Row where
  y : ℚ
  n : ℕ
  words : List Frag
deriving DecidableEq

/-- Place one fragment: scan the rows in creation order for the first one
whose running mean matches the fragment's `top` under `tolM`; join it
(updating the mean incrementally) or append a fresh row. -/
def placeFrag (tolM : ℚ → ℚ → Bool) (w : Frag) : List Row → List Row
  | [] => [⟨w.top, 1, [w]⟩]
  | r :: rs =>
    if tolM r.y w.top then
      ⟨(r.y * (r.n : ℚ) + w.top) / ((r.n : ℚ) + 1), r.n + 1, r.words ++ [w]⟩ :: rs
    else r :: placeFrag tolM w rs

/-- TW tolerance test: `abs(row["y"] - w["top"]) < 3` (line 165). -/
def twTol (y t : ℚ) : Bool := (if y - t < 0 then t - y else y - t) < 3

/-- US tolerance test: `abs(row["y"] - w["top"]) <= y_tol` with
`y_tol = 2.5` (line 199). -/
def usTol (y t : ℚ) : Bool := (if y - t < 0 then t - y else y - t) ≤ 5/2

def clusterFold (tolM : ℚ → ℚ → Bool) (ws : List Frag) : List Row :=
  ws.foldl (fun rs w => placeFrag tolM w rs) []

/-- Stable insertion sort by a rational key (the behaviour of Python's
stable `sorted(…, key=…)` on these inputs). -/
def insertByKey (key : α → ℚ) (a : α) : List α → List α
  | [] => [a]
  | b :: l => if key a ≤ key b then a :: b :: l else b :: insertByKey key a l

def pySortBy (key : α → ℚ) (xs : List α) : List α :=
  xs.foldr (insertByKey key) []

/-- Within-row cell ordering: `sorted(row["words"], key=lambda w: w["x0"])`. -/
def rowCells (r : Row) : List Frag := pySortBy Frag.x0 r.words

/-- Flatten one row: join cell texts with single spaces, then collapse
whitespace (`" ".join(text.split())`). -/
def rowLine (r : Row) : String :=
  joinSpace (pySplit (joinSpace ((rowCells r).map Frag.text)))

/-- Embeds `CathayTWTradeParser._extract_lines`, one page (lines
161-177): fragments are clustered in extractor order (no pre-sort), rows
are flattened in creation order. -/
def extractLinesTWPage (ws : List Frag) : List String :=
  (clusterFold twTol ws).map rowLine

/-- Embeds the row list of `CathayUSTradeParser._cluster_rows`:
fragments are first sorted by `top` (line 196), then clustered. -/
def clusterRowsUSRows (ws : List Frag) : List Row :=
  clusterFold usTol (pySortBy Frag.top ws)

/-- Embeds `CathayUSTradeParser._cluster_rows` (lines 193-212). -/
def clusterRowsUS (ws : List Frag) : List String :=
  (clusterRowsUSRows ws).map rowLine

/-! ## Proof-side auxiliary definitions. -/

/-- Fixture: a miniature Cathay-TW statement line sequence containing a
code-mapping section, an accepted trade row and its standalone
receivable/payable line. -/
def twSampleLines : List String :=
  ["代碼 股票名稱 漲跌 股數 市值 集保股數 集保市值",
   "2330 台積電 ▼1,140 75 85,500 0 0",
   "理財資訊",
   "台積電 現股買進 1,000 580.00 580,000 58 0",
   "579,942"]

/-- Invariant of the Cathay-US clustering fold on an input sorted by
`top`: row means strictly increase in creation order, every finished
(non-last) row sits more than the tolerance below the bound `lb` (the
largest `top` processed so far), and every row mean is at most `lb`. -/
def usRowsInv (rows : List Row) (lb : ℚ) : Prop :=
  List.Pairwise (fun a b : Row => a.y < b.y) rows ∧
  (∀ r ∈ rows.dropLast, r.y + 5/2 < lb) ∧
  (∀ r ∈ rows, r.y ≤ lb)

end TxParser

namespace TxParser

/-! # Theorems

General helper lemmas first, then one theorem per claim (with its
counterexample and witness theorems where applicable). -/

set_option maxRecDepth 20000

/-- Strings with a non-whitespace first and last character are fixed by
`pyStrip`. -/
theorem pyStrip_of_cons (c : Char) (cs : List Char) (hc : pySpace c = false)
    (hd : ∀ d ds, (c :: cs).reverse = d :: ds → pySpace d = false) :
    pyStrip (String.mk (c :: cs)) = String.mk (c :: cs) := by
  unfold pyStrip
  rcases hr : (c :: cs).reverse with _ | ⟨d, ds⟩
  · simp at hr
  · have hdd : pySpace d = false := hd d ds hr
    show String.mk ((((c :: cs).dropWhile pySpace).reverse.dropWhile pySpace).reverse) = _
    rw [List.dropWhile_cons, if_neg (by simp [hc]), hr, List.dropWhile_cons,
      if_neg (by simp [hdd]), ← hr, List.reverse_reverse]

/-! ## Claim C6 (money parse) — corrected. -/

/-- Claim C6 counterexample: the source strips `CR`/`DR` and `$`
*everywhere*, not just as a trailing marker / leading symbol, so the
input `"1CR2"` — which has no trailing marker and is not a number — parses
to `12.0` instead of the null sentinel the claim requires, and `"$1$2"`
likewise parses to `12.0`. -/
theorem C6_counterexample :
    toMoney "1CR2" = some 12 ∧ toMoney "1CR2" ≠ none ∧
      toMoney "$1$2" = some 12 := by decide

/-- Claim C6 as amended: `_to_money` maps `(1,234.50)` to `-1234.50` and
`N/A` (case-insensitively) to `0.0` rather than the null sentinel, treats
a parenthesised value as negated (relative to the unparenthesised value),
removes every `CR`, `DR`, `$` and `,` occurrence before the numeric
parse, returns `none` when the residue is not numeric, and never raises
(it is a total function). -/
theorem C6_money_parse :
    toMoney "(1,234.50)" = some (-1234.5) ∧
    toMoney "N/A" = some 0 ∧
    toMoney "n/a" = some 0 ∧
    toMoney "" = none ∧ toMoney "abc" = none ∧ toMoney "12CR" = some 12 ∧
    toMoney "$1,234.50" = some 1234.5 ∧
    (∀ t : String, pyStrip t = t → pyUpper t ≠ "N/A" →
      ¬(t.data.take 1 = ['('] ∧ t.data.reverse.take 1 = [')']) →
      toMoney ("(" ++ t ++ ")") = (toMoney t).map (fun q => -q)) := by
  refine ⟨by decide, by decide, by decide, by decide, by decide, by decide, by decide, ?_⟩
  intro t h1 h2 h3
  have hdata : ("(" ++ t ++ ")").data = '(' :: (t.data ++ [')']) := rfl
  have hrev : ('(' :: (t.data ++ [')'])).reverse = ')' :: (t.data.reverse ++ ['(']) := by
    simp
  have hstrip : pyStrip ("(" ++ t ++ ")") = "(" ++ t ++ ")" := by
    have : ("(" ++ t ++ ")") = String.mk ('(' :: (t.data ++ [')'])) := rfl
    rw [this]
    exact pyStrip_of_cons _ _ (by decide)
      (fun d ds h => by rw [hrev] at h; cases h; decide)
  have hupper : pyUpper ("(" ++ t ++ ")") ≠ "N/A" := by
    intro h
    have := congrArg String.data h
    simp [pyUpper, hdata] at this
  have hupper2 : pyUpper (pyStrip t) ≠ "N/A" := by rw [h1]; exact h2
  have hneg1 : (("(" ++ t ++ ")").toList.take 1 = ['('] ∧
      ("(" ++ t ++ ")").toList.reverse.take 1 = [')']) := by
    constructor
    · rfl
    · show ('(' :: (t.data ++ [')'])).reverse.take 1 = [')']
      rw [hrev]; rfl
  have hinner : ((("(" ++ t ++ ")").toList.drop 1).reverse.drop 1).reverse = t.data := by
    show ((('(' :: (t.data ++ [')'])).drop 1).reverse.drop 1).reverse = t.data
    simp
  unfold toMoney
  rw [hstrip, h1]
  simp only [if_neg hupper, if_neg h2, decide_eq_true hneg1, decide_eq_false h3,
    if_true, if_false, hinner]
  cases hE : pyFloat? (pyStrip (String.mk (remove1 ','
      (remove1 '$' (remove2 'D' 'R' (remove2 'C' 'R' t.data)))))) <;>
    simp [hE, h3]

/-- Witness for C6: the parenthesised-negation law applied at
`t = "7.25"`. -/
theorem C6_money_parse_witness :
    toMoney ("(" ++ "7.25" ++ ")") = (toMoney "7.25").map (fun q => -q) :=
  C6_money_parse.2.2.2.2.2.2.2 "7.25" (by decide) (by decide) (by decide)

/-! ## Claim C7 (date normalize) — corrected. -/

/-- Digits contribute at most 9 per position. -/
theorem digit_toNat_le (c : Char) (h : c.isDigit = true) : c.toNat - 48 ≤ 9 := by
  simp [Char.isDigit] at h
  obtain ⟨-, h2⟩ := h
  have h3 : c.val.toNat ≤ (57 : UInt32).toNat := h2
  have h4 : (57 : UInt32).toNat = 57 := rfl
  unfold Char.toNat
  omega

/-- Value bound for a two-digit string. -/
theorem digitsVal_two_le (a b : Char) (ha : a.isDigit = true)
    (hb : b.isDigit = true) : digitsVal [a, b] ≤ 99 := by
  have h1 := digit_toNat_le a ha
  have h2 := digit_toNat_le b hb
  simp [digitsVal]
  omega

/-- Value bound for any two-character digit string. -/
theorem digitsVal_len2_le (l : List Char) (h : l.length = 2)
    (hd : l.all Char.isDigit = true) : digitsVal l ≤ 99 := by
  rcases l with _ | ⟨a, _ | ⟨b, _ | _⟩⟩ <;> simp at h
  simp at hd
  exact digitsVal_two_le a b hd.1 hd.2

/-- The two `strptime` formats of `_normalize_date` are mutually
exclusive (two- vs four-digit year). -/
theorem strptime_exclusive (s : String) :
    strptime2 s = none ∨ strptime4 s = none := by
  unfold strptime2 strptime4
  rcases hsp : splitSlash s.toList with _ | ⟨pm, _ | ⟨pd, _ | ⟨py, _ | _⟩⟩⟩ <;>
    simp
  cases hm : monthPiece pm <;> cases hd : dayPiece pd <;> simp
  by_cases h2 : py.length = 2
  · right; intro h4; omega
  · left; intro h'; exact absurd h' h2

/-- Characterisation of a successful two-digit-year parse: the pivoted
year lies in 1969..2068 and the date is valid. -/
theorem strptime2_bounds (s : String) (m d y : Nat)
    (h : strptime2 s = some (m, d, y)) :
    1969 ≤ y ∧ y ≤ 2068 ∧ validYMD y m d = true := by
  unfold strptime2 at h
  split at h <;> [skip; simp at h]
  split at h <;> [skip; simp at h]
  split at h <;> [skip; simp at h]
  rename_i hcond
  dsimp only [] at h
  split at h <;> [skip; simp at h]
  rename_i hv
  simp only [Option.some.injEq, Prod.mk.injEq] at h
  obtain ⟨rfl, rfl, rfl⟩ := h
  have hle := digitsVal_len2_le _ hcond.1 hcond.2
  refine ⟨?_, ?_, hv⟩ <;> unfold pivot2 <;> split <;> omega

/-- Shifting a valid date from 1969..1999 forward by a century keeps it
valid (neither range contains a multiple of 100, so leap status is
preserved). -/
theorem validYMD_shift (y m d : Nat) (h : validYMD y m d = true)
    (h1 : 1969 ≤ y) (h2 : y ≤ 1999) : validYMD (y + 100) m d = true := by
  unfold validYMD at *
  have hdm : daysInMonth (y + 100) m = daysInMonth y m := by
    unfold daysInMonth isLeap
    have e4 : (y + 100) % 4 = y % 4 := by omega
    have e100a : ¬(y % 100 = 0) := by omega
    have e100b : ¬((y + 100) % 100 = 0) := by omega
    simp [e4, e100a, e100b]
  rw [hdm]
  simp at h ⊢
  omega

/-- Unfolding helper: result of `_normalize_date` when the two-digit
format succeeds on the stripped input. -/
theorem normalizeDate_of2 (s : String) (p : Nat × Nat × Nat) (r : String)
    (h : strptime2 (pyStrip s) = some p)
    (h2 : normDateFromParse (some p) = some r) :
    normalizeDate s = r := by
  unfold normalizeDate
  dsimp only []
  rw [h, h2]

/-- Unfolding helper: result of `_normalize_date` when only the
four-digit format succeeds on the stripped input. -/
theorem normalizeDate_of4 (s : String) (p : Nat × Nat × Nat)
    (h0 : strptime2 (pyStrip s) = none) (h : strptime4 (pyStrip s) = some p) :
    normalizeDate s = match normDateFromParse (some p) with
      | some r => r
      | none => pyStrip s := by
  unfold normalizeDate
  dsimp only []
  rw [h0, h]
  rfl

/-- Claim C7 counterexample: `"02/29/1600"` parses under `MM/DD/YYYY`
with year 1600 < 2000, but the century shift would land on
`02/29/1700`, which does not exist (`1700` is not a leap year), so the
source returns the input unchanged instead of adding 100 years as the
claim requires. -/
theorem C7_counterexample :
    strptime4 "02/29/1600" = some (2, 29, 1600) ∧
    normalizeDate "02/29/1600" = "02/29/1600" ∧
    normalizeDate "02/29/1600" ≠ renderYMD 1700 2 29 := by decide

/-- Claim C7 as amended: `_normalize_date` first strips its input, then
accepts `MM/DD/YY` (two-digit years pivoted into 1969..2068) and
`MM/DD/YYYY`, renders `YYYY/MM/DD`, and adds 100 years whenever the
naively parsed year is below 2000 *and the shifted date is still a
valid date* — always true on the two-digit path, whose adjusted years
land in 2000..2099; when the shifted date is invalid, or the stripped
input parses under neither format, the *stripped* input is returned
(the embedding is a total function: it never raises). -/
theorem C7_date_normalize :
    normalizeDate "9/6/25" = "2025/09/06" ∧
    normalizeDate "09/19/2025" = "2025/09/19" ∧
    normalizeDate " 9/6/25 " = "2025/09/06" ∧
    (∀ s, strptime2 (pyStrip s) = none → strptime4 (pyStrip s) = none →
      normalizeDate s = pyStrip s) ∧
    (∀ s m d y, strptime2 (pyStrip s) = some (m, d, y) →
      normalizeDate s = renderYMD (if y < 2000 then y + 100 else y) m d ∧
      2000 ≤ (if y < 2000 then y + 100 else y) ∧
      (if y < 2000 then y + 100 else y) ≤ 2099) ∧
    (∀ s m d y, strptime4 (pyStrip s) = some (m, d, y) → 2000 ≤ y →
      normalizeDate s = renderYMD y m d) ∧
    (∀ s m d y, strptime4 (pyStrip s) = some (m, d, y) → y < 2000 →
      (validYMD (y + 100) m d = true → normalizeDate s = renderYMD (y + 100) m d) ∧
      (validYMD (y + 100) m d = false → normalizeDate s = pyStrip s)) := by
  have hex : ∀ s (p : Nat × Nat × Nat), strptime4 s = some p → strptime2 s = none := by
    intro s p hp
    rcases strptime_exclusive s with h' | h'
    · exact h'
    · rw [hp] at h'; exact absurd h' (by simp)
  refine ⟨by decide, by decide, by decide, ?_, ?_, ?_, ?_⟩
  · intro s h2 h4
    unfold normalizeDate
    dsimp only []
    rw [h2, h4]
    simp [normDateFromParse]
  · intro s m d y h
    obtain ⟨hy1, hy2, hv⟩ := strptime2_bounds (pyStrip s) m d y h
    by_cases hlt : y < 2000
    · refine ⟨?_, by rw [if_pos hlt]; omega, by rw [if_pos hlt]; omega⟩
      refine normalizeDate_of2 s _ _ h ?_
      simp only [normDateFromParse]
      rw [if_pos hlt, if_pos (validYMD_shift y m d hv (by omega) (by omega)),
        if_pos hlt]
    · refine ⟨?_, by rw [if_neg hlt]; omega, by rw [if_neg hlt]; omega⟩
      refine normalizeDate_of2 s _ _ h ?_
      simp only [normDateFromParse]
      rw [if_neg hlt, if_neg hlt]
  · intro s m d y h hge
    rw [normalizeDate_of4 s _ (hex (pyStrip s) _ h) h]
    simp only [normDateFromParse]
    rw [if_neg (by omega)]
  · intro s m d y h hlt
    constructor
    · intro hv
      rw [normalizeDate_of4 s _ (hex (pyStrip s) _ h) h]
      simp only [normDateFromParse]
      rw [if_pos hlt, if_pos hv]
    · intro hv
      rw [normalizeDate_of4 s _ (hex (pyStrip s) _ h) h]
      simp only [normDateFromParse]
      rw [if_pos hlt, if_neg (by simp [hv])]

/-- Witness for C7: the two-digit branch applied at the padded input
`" 9/6/25 "`, the four-digit branch at `"09/19/2025"`, and the
failure branch at the padded unparseable `" x "` (returning the
stripped `"x"`). -/
theorem C7_date_normalize_witness :
    normalizeDate " 9/6/25 " =
      renderYMD (if 2025 < 2000 then 2025 + 100 else 2025) 9 6 ∧
    normalizeDate "09/19/2025" = renderYMD 2025 9 19 ∧
    normalizeDate " x " = pyStrip " x " :=
  ⟨(C7_date_normalize.2.2.2.2.1 " 9/6/25 " 9 6 2025 (by decide)).1,
   C7_date_normalize.2.2.2.2.2.1 "09/19/2025" 9 19 2025 (by decide) (by omega),
   C7_date_normalize.2.2.2.1 " x " (by decide) (by decide)⟩

/-! ## Claim C8 (option symbol) — confirmed. -/

/-- Claim C8: on the whitespace-normalised token shape
`ROOT EXPIRY STRIKE C|P` the symbol normaliser produces
uppercased-root ++ `YYMMDD` ++ call/put letter ++ 8-digit
`round(strike*1000)`; a failing split, a failing date parse or a failing
strike conversion leaves the raw string unchanged. -/
theorem C8_option_symbol :
    normalizeSymbol "AAPL 9/6/25 195 P" = "AAPL250906P00195000" ∧
    (∀ raw root exp strike cp m d y q,
      pySplit raw = [root, exp, strike, cp] →
      (root ≠ "" && root.toList.all rootChar && expShape exp &&
        strikeShape strike && (cp = "C" || cp = "P" || cp = "c" || cp = "p")) = true →
      (strptime4 exp = some (m, d, y) ∨
        (strptime4 exp = none ∧ strptime2 exp = some (m, d, y))) →
      pyFloat? (String.mk (remove1 ',' strike.toList)) = some q →
      normalizeSymbol raw =
        pyUpper root ++ (padNum 2 (y % 100) ++ padNum 2 m ++ padNum 2 d) ++
          pyUpper cp ++ padNum 8 (roundHalfEven (q * 1000)).toNat) ∧
    (∀ raw root exp strike cp,
      pySplit raw = [root, exp, strike, cp] →
      toOccSymbol root exp cp strike = none → normalizeSymbol raw = raw) ∧
    (∀ raw, (∀ root exp strike cp, pySplit raw ≠ [root, exp, strike, cp]) →
      normalizeSymbol raw = raw) := by
  refine ⟨by decide, ?_, ?_, ?_⟩
  · intro raw root exp strike cp m d y q hsplit hshape hdt hq
    have hocc : toOccSymbol root exp cp strike =
        some (pyUpper root ++ (padNum 2 (y % 100) ++ padNum 2 m ++ padNum 2 d) ++
          pyUpper cp ++ padNum 8 (roundHalfEven (q * 1000)).toNat) := by
      have hcp : cp = "C" ∨ cp = "P" ∨ cp = "c" ∨ cp = "p" := by
        simp at hshape
        tauto
      have hcpch : (match (pyUpper cp).toList with
          | c :: _ => String.mk [c]
          | [] => "") = pyUpper cp := by
        rcases hcp with rfl | rfl | rfl | rfl <;> rfl
      unfold toOccSymbol
      rcases hdt with h4 | ⟨h4, h2⟩
      · rw [h4]
        simp only [hq, hcpch]
      · rw [h4, h2]
        simp only [hq, hcpch]
    unfold normalizeSymbol
    split
    · next root' exp' strike' cp' heq =>
      rw [hsplit] at heq
      injection heq with e1 heq; injection heq with e2 heq
      injection heq with e3 heq; injection heq with e4 _
      subst e1; subst e2; subst e3; subst e4
      rw [if_pos hshape, hocc]
    · next hne => exact absurd hsplit (hne root exp strike cp)
  · intro raw root exp strike cp hsplit hocc
    unfold normalizeSymbol
    split
    · next root' exp' strike' cp' heq =>
      rw [hsplit] at heq
      injection heq with e1 heq; injection heq with e2 heq
      injection heq with e3 heq; injection heq with e4 _
      subst e1; subst e2; subst e3; subst e4
      by_cases hc : (root ≠ "" && root.toList.all rootChar && expShape exp &&
          strikeShape strike && (cp = "C" || cp = "P" || cp = "c" || cp = "p")) = true
      · rw [if_pos hc, hocc]
      · rw [if_neg hc]
    · next hne => exact absurd hsplit (hne root exp strike cp)
  · intro raw h
    unfold normalizeSymbol
    split
    · next root exp strike cp heq => exact absurd heq (h root exp strike cp)
    · rfl

/-- Witness for C8: the general construction applied at the claim's own
example `"AAPL 9/6/25 195 P"`. -/
theorem C8_option_symbol_witness :
    normalizeSymbol "AAPL 9/6/25 195 P" =
      pyUpper "AAPL" ++ (padNum 2 (2025 % 100) ++ padNum 2 9 ++ padNum 2 6) ++
        pyUpper "P" ++ padNum 8 (roundHalfEven ((195 : ℚ) * 1000)).toNat :=
  C8_option_symbol.2.1 "AAPL 9/6/25 195 P" "AAPL" "9/6/25" "195" "P" 9 6 2025 195
    (by decide) (by decide) (by decide) (by decide)

/-! ## Schwab window lemmas (claims C5, C10, and C1's Schwab half). -/

/-- The raw amount resolves whenever the required-field gate passed. -/
theorem schwabAmountRaw_isSome (action : Option String)
    (principal total fee : Option ℚ) (h : total.isSome ∨ principal.isSome) :
    ∃ a, schwabAmountRaw action principal total fee = some a := by
  rcases total with _ | t <;> rcases principal with _ | p <;>
    simp [schwabAmountRaw] at h ⊢
  split <;> simp

/-- Sign normalisation: buys end non-positive, sells end non-negative,
an unknown action leaves the amount untouched. -/
theorem schwabSignNorm_spec (a : ℚ) (action : Option String) :
    ∃ b, schwabSignNorm (some a) action = some b ∧
      (action = some "buy" → b ≤ 0) ∧
      (action = some "sell" → 0 ≤ b) ∧
      (action = none → b = a) := by
  rcases action with _ | act
  · exact ⟨a, rfl, by simp, by simp, fun _ => rfl⟩
  · simp only [schwabSignNorm]
    by_cases hne : act ≠ ""
    · by_cases hbuy : pyLower act = "buy" ∧ 0 < a
      · refine ⟨-a, by rw [if_pos hne, if_pos hbuy], ?_, ?_, by simp⟩
        · intro _; linarith [hbuy.2]
        · intro hs
          injection hs with hs
          subst hs
          simp [pyLower] at hbuy
      · by_cases hsell : pyLower act = "sell" ∧ a < 0
        · refine ⟨-a, by rw [if_pos hne, if_neg hbuy, if_pos hsell], ?_, ?_, by simp⟩
          · intro hb
            injection hb with hb
            subst hb
            simp [pyLower] at hsell
          · intro _; linarith [hsell.2]
        · refine ⟨a, by rw [if_pos hne, if_neg hbuy, if_neg hsell], ?_, ?_, by simp⟩
          · intro hb
            injection hb with hb
            subst hb
            simp [pyLower] at hbuy
            linarith [hbuy]
          · intro hs
            injection hs with hs
            subst hs
            simp [pyLower] at hsell
            linarith [hsell]
    · refine ⟨a, by rw [if_neg hne], by simp_all, by simp_all, by simp⟩

/-- Everything the claims need about one emitted Schwab record: field
projections, the required-field gate, and the sign/preservation
behaviour of the cash amount. -/
theorem schwabBuildRecord_spec
    (rawSym : String) (action : Option String)
    (qty price principal feeBlock total : Option ℚ)
    (td sd : Option String) (r : TradeRec)
    (h : schwabBuildRecord rawSym action qty price principal feeBlock total td sd = some r) :
    r.trade_type = action.getD "" ∧ r.shares = qty ∧ r.price = price ∧
    qty.isSome ∧ price.isSome ∧
    (∃ a, r.total = some a ∧
      (action = some "buy" → a ≤ 0) ∧
      (action = some "sell" → 0 ≤ a) ∧
      (action = none → ∀ t, total = some t → a = t)) := by
  unfold schwabBuildRecord at h
  dsimp only [] at h
  split at h
  case isTrue hgate =>
    simp only [Option.some.injEq] at h
    subst h
    obtain ⟨hsym, hqty, hprice, htp⟩ := hgate
    refine ⟨rfl, rfl, rfl, hqty, hprice, ?_⟩
    obtain ⟨a0, ha0⟩ := schwabAmountRaw_isSome action principal total
      (schwabFee feeBlock principal total) htp
    obtain ⟨b, hb, hbuy, hsell, hid⟩ := schwabSignNorm_spec a0 action
    refine ⟨b, ?_, hbuy, hsell, ?_⟩
    · show schwabSignNorm (schwabAmountRaw action principal total
        (schwabFee feeBlock principal total)) action = some b
      rw [ha0, hb]
    · intro hact t ht
      subst hact
      rw [ht] at ha0
      simp [schwabAmountRaw] at ha0
      rw [hid rfl, ha0]
  case isFalse => simp at h

/-- Action detection yields only `none`, `"buy"` or `"sell"`. -/
theorem detectAction_cases (w : String) :
    detectAction w = none ∨ detectAction w = some "buy" ∨
      detectAction w = some "sell" := by
  unfold detectAction
  cases searchWordPos buyVocab w <;> cases searchWordPos sellVocab w <;> simp
  omega

/-! ## Claim C5 (Schwab cash-sign convention) — confirmed. -/

/-- Claim C5: every record emitted by the Schwab window construction with
trade type `"buy"` carries a non-positive total, and every one with
trade type `"sell"` a non-negative total, whether the total was parsed
directly or derived from principal and fee. -/
theorem C5_sign_convention (rawSym : String) (action : Option String)
    (qty price principal feeBlock total : Option ℚ) (td sd : Option String)
    (r : TradeRec)
    (h : schwabBuildRecord rawSym action qty price principal feeBlock total td sd = some r) :
    (r.trade_type = "buy" → ∃ a, r.total = some a ∧ a ≤ 0) ∧
    (r.trade_type = "sell" → ∃ a, r.total = some a ∧ 0 ≤ a) := by
  obtain ⟨htt, -, -, -, -, a, ha, hbuy, hsell, -⟩ :=
    schwabBuildRecord_spec rawSym action qty price principal feeBlock total td sd r h
  constructor
  · intro hb
    rw [hb] at htt
    rcases action with _ | act
    · simp at htt
    · simp at htt
      subst htt
      exact ⟨a, ha, hbuy rfl⟩
  · intro hs
    rw [hs] at htt
    rcases action with _ | act
    · simp at htt
    · simp at htt
      subst htt
      exact ⟨a, ha, hsell rfl⟩

/-- Witness for C5: a buy whose parsed total was positive is emitted
with total `-5`, a sell with a derived total keeps it non-negative. -/
theorem C5_sign_convention_witness :
    ((schwabBuildRecord "X" (some "buy") (some 1) (some 2) none none (some 5)
        none none = some ⟨"X", "buy", "USD", some 1, some 2, some 0, some "", some (-5)⟩) ∧
      ∃ a, (TradeRec.mk "X" "buy" "USD" (some 1) (some 2) (some 0) (some "") (some (-5))).total
        = some a ∧ a ≤ 0) := by
  have h : schwabBuildRecord "X" (some "buy") (some 1) (some 2) none none (some 5)
      none none = some ⟨"X", "buy", "USD", some 1, some 2, some 0, some "", some (-5)⟩ := by
    decide
  exact ⟨h, (C5_sign_convention "X" (some "buy") (some 1) (some 2) none none (some 5)
    none none _ h).1 rfl⟩

/-! ## Claim C10 (empty trade type) — confirmed. -/

/-- Claim C10: Schwab records carry trade type `"buy"`, `"sell"` or
`""`; when the window contains no action vocabulary a record can still
be emitted, its trade type is empty and the sign normalisation is
skipped, so a parsed total keeps its sign. -/
theorem C10_empty_action :
    (∀ w rawSym qty price principal feeBlock total td sd r,
      schwabBuildRecord rawSym (detectAction w) qty price principal feeBlock total td sd
        = some r →
      (r.trade_type = "buy" ∨ r.trade_type = "sell" ∨ r.trade_type = "") ∧
      (detectAction w = none →
        r.trade_type = "" ∧ ∀ t, total = some t → r.total = some t)) ∧
    detectAction "Quantity 1 Price 2 Principal 4 Total Amount 5" = none ∧
    schwabBuildRecord "X"
        (detectAction "Quantity 1 Price 2 Principal 4 Total Amount 5")
        (some 1) (some 2) none none (some 5) none none =
      some ⟨"X", "", "USD", some 1, some 2, some 0, some "", some 5⟩ := by
  refine ⟨?_, by decide, by decide⟩
  intro w rawSym qty price principal feeBlock total td sd r h
  obtain ⟨htt, -, -, -, -, a, ha, -, -, hnone⟩ :=
    schwabBuildRecord_spec rawSym (detectAction w) qty price principal feeBlock
      total td sd r h
  constructor
  · rcases detectAction_cases w with hd | hd | hd <;> rw [hd] at htt <;> simp [htt]
  · intro hd
    rw [hd] at htt
    refine ⟨by simpa using htt, ?_⟩
    intro t ht
    rw [ha, hnone hd t ht]

/-- Witness for C10: the quantified part applied at the concrete
action-free window of the theorem's own closed conjuncts. -/
theorem C10_empty_action_witness :
    (TradeRec.mk "X" "" "USD" (some 1) (some 2) (some 0) (some "") (some 5)).trade_type
        = "" ∧
      ∀ t, (some (5 : ℚ)) = some t →
        (TradeRec.mk "X" "" "USD" (some 1) (some 2) (some 0) (some "") (some 5)).total
          = some t :=
  (C10_empty_action.1 "Quantity 1 Price 2 Principal 4 Total Amount 5" "X"
    (some 1) (some 2) none none (some 5) none none _ (by decide)).2 (by decide)

/-! ## Claim C1 (required-field gating) — corrected. -/

/-- Claim C1 counterexample: the Cathay-US page scan appends a record for
every reference-anchored group unconditionally (`_project_row` never
fails and the `if r` filter never drops a non-empty dict), so the line
`"12345678"` alone yields a record whose shares, price and total are all
null — the claim's gating invariant fails for this extractor. -/
theorem C1_counterexample :
    parsePageUS ["12345678"] =
      [{ symbol := "", trade_type := "", currency := "", shares := none,
         price := none, fee := none, date := some "", total := none }] := by
  decide

/-- Emitted Cathay-TW records always resolve shares, price and total. -/
theorem emitTW_mem (cmap : List (String × String)) (sdate : Option String)
    (name ttype sh pr fee : String) (rp : Option ℚ) (r : TradeRec)
    (h : r ∈ emitTW cmap sdate name ttype sh pr fee rp) :
    r.shares.isSome ∧ r.price.isSome ∧ r.total.isSome := by
  unfold emitTW at h
  split at h <;> simp at h
  subst h
  exact ⟨rfl, rfl, rfl⟩

/-- Required-field gating holds throughout the fuelled Cathay-TW scan. -/
theorem parseLinesTWAux_fields (cmap : List (String × String))
    (sdate : Option String) :
    ∀ fuel ls r, r ∈ parseLinesTWAux cmap sdate fuel ls →
      r.shares.isSome ∧ r.price.isSome ∧ r.total.isSome := by
  intro fuel
  induction fuel with
  | zero => intro ls r h; simp [parseLinesTWAux] at h
  | succ f ih =>
    intro ls r h
    cases ls with
    | nil => simp [parseLinesTWAux] at h
    | cons s rest =>
      rw [parseLinesTWAux] at h
      cases hc : classifyTW s with
      | skip => rw [hc] at h; exact ih rest r h
      | row name ttype sh pr fee =>
        rw [hc] at h
        rcases List.mem_append.mp h with hm | hm
        · exact emitTW_mem _ _ _ _ _ _ _ _ _ hm
        · exact ih _ r hm

/-- Claim C1 as amended: the Cathay-TW scan and the Schwab window
construction only emit records with non-null shares, price and total
(discarding raw rows where any of the three is unresolvable), but the
Cathay-US extractor does not share the invariant (see the
counterexample). -/
theorem C1_required_fields :
    (∀ cmap sdate ls r, r ∈ parseLinesTW cmap sdate ls →
      r.shares.isSome ∧ r.price.isSome ∧ r.total.isSome) ∧
    (∀ rawSym action qty price principal feeBlock total td sd r,
      schwabBuildRecord rawSym action qty price principal feeBlock total td sd
        = some r →
      r.shares.isSome ∧ r.price.isSome ∧ r.total.isSome) := by
  constructor
  · intro cmap sdate ls r h
    exact parseLinesTWAux_fields cmap sdate ls.length ls r h
  · intro rawSym action qty price principal feeBlock total td sd r h
    obtain ⟨-, hsh, hpr, hq, hp, a, ha, -⟩ :=
      schwabBuildRecord_spec rawSym action qty price principal feeBlock total td sd r h
    exact ⟨by rw [hsh]; exact hq, by rw [hpr]; exact hp, by rw [ha]; rfl⟩

/-- Witness for C1: the gating conclusions at one concrete Cathay-TW
record and one concrete Schwab record. -/
theorem C1_required_fields_witness :
    ((TradeRec.mk "2330.TW" "buy" "TWD" (some 1000) (some 580) (some 58)
        (some "d") (some 579942)).shares.isSome ∧
      (TradeRec.mk "2330.TW" "buy" "TWD" (some 1000) (some 580) (some 58)
        (some "d") (some 579942)).price.isSome ∧
      (TradeRec.mk "2330.TW" "buy" "TWD" (some 1000) (some 580) (some 58)
        (some "d") (some 579942)).total.isSome) ∧
    ((TradeRec.mk "X" "" "USD" (some 1) (some 2) (some 0) (some "")
        (some 5)).shares.isSome ∧
      (TradeRec.mk "X" "" "USD" (some 1) (some 2) (some 0) (some "")
        (some 5)).price.isSome ∧
      (TradeRec.mk "X" "" "USD" (some 1) (some 2) (some 0) (some "")
        (some 5)).total.isSome) :=
  ⟨C1_required_fields.1 [("台積電", "2330")] (some "d")
      ["台積電 現股買進 1,000 580.00 580,000 58 0", "579,942"] _ (by decide),
   C1_required_fields.2 "X" none (some 1) (some 2) none none (some 5) none none _
      (by decide)⟩

/-! ## Claim C4 (Cathay-TW receivable/payable lookahead) — confirmed. -/

/-- The lookahead continuation never grows the line list. -/
theorem rpLook_len (ls : List String) : (rpLook ls).2.length ≤ ls.length := by
  rcases ls with _ | ⟨l1, r1⟩
  · simp [rpLook]
  · cases h1 : standaloneNum l1
    case some => simp [rpLook, h1]
    case none =>
      rcases r1 with _ | ⟨l2, r2⟩
      · simp [rpLook, h1]
      · cases h2 : standaloneNum l2
        case some => simp [rpLook, h1, h2]; omega
        case none =>
          rcases r2 with _ | ⟨l3, r3⟩
          · simp [rpLook, h1, h2]
          · cases h3 : standaloneNum l3
            case some => simp [rpLook, h1, h2, h3]; omega
            case none => simp [rpLook, h1, h2, h3]

/-- Fuel irrelevance: any sufficient fuel computes the same scan. -/
theorem parseLinesTWAux_congr (cmap : List (String × String))
    (sdate : Option String) :
    ∀ f g ls, ls.length ≤ f → ls.length ≤ g →
      parseLinesTWAux cmap sdate f ls = parseLinesTWAux cmap sdate g ls := by
  intro f
  induction f with
  | zero =>
    intro g ls hf hg
    have h0 : ls = [] := List.length_eq_zero.mp (by omega)
    subst h0
    cases g <;> simp [parseLinesTWAux]
  | succ f ih =>
    intro g ls hf hg
    cases ls with
    | nil => cases g <;> simp [parseLinesTWAux]
    | cons s rest =>
      cases g with
      | zero => simp at hg
      | succ g' =>
        rw [parseLinesTWAux, parseLinesTWAux]
        have hr : rest.length ≤ f := by simp at hf; omega
        have hg2 : rest.length ≤ g' := by simp at hg; omega
        cases hc : classifyTW s with
        | skip => exact ih g' rest hr hg2
        | row name ttype sh pr fee =>
          dsimp only []
          have hlen := rpLook_len rest
          rw [ih g' (rpLook rest).2 (le_trans hlen hr) (le_trans hlen hg2)]

/-- One step of the Cathay-TW scan. -/
theorem parseLinesTW_cons (cmap : List (String × String)) (sdate : Option String)
    (s : String) (rest : List String) :
    parseLinesTW cmap sdate (s :: rest) =
      match classifyTW s with
      | .skip => parseLinesTW cmap sdate rest
      | .row name ttype sh pr fee =>
        emitTW cmap sdate name ttype sh pr fee ((rpLook rest).1.bind toNumTW) ++
          parseLinesTW cmap sdate (rpLook rest).2 := by
  unfold parseLinesTW
  simp only [List.length_cons]
  rw [parseLinesTWAux]
  cases hc : classifyTW s with
  | skip => rfl
  | row name ttype sh pr fee =>
    dsimp only []
    have hlen := rpLook_len rest
    rw [parseLinesTWAux_congr cmap sdate rest.length (rpLook rest).2.length
      (rpLook rest).2 hlen le_rfl]

/-- Characterisation of the lookahead: the first of the next three lines
that is a standalone non-zero number is taken, and the scan resumes just
past it. -/
theorem rpLook_first (rest : List String) (j : Nat) (numText : String)
    (hj3 : j < 3) (hjlen : j < rest.length)
    (hbefore : ∀ i, i < j → standaloneNum (rest.getD i "") = none)
    (hat : standaloneNum (rest.getD j "") = some numText) :
    rpLook rest = (some numText, rest.drop (j + 1)) := by
  interval_cases j
  · rcases rest with _ | ⟨l1, r1⟩
    · simp at hjlen
    · simp only [List.getD_cons_zero] at hat
      simp [rpLook, hat]
  · rcases rest with _ | ⟨l1, _ | ⟨l2, r2⟩⟩ <;> simp at hjlen
    have h1 : standaloneNum l1 = none := by
      have := hbefore 0 (by omega)
      simpa using this
    simp only [List.getD_cons_succ, List.getD_cons_zero] at hat
    simp [rpLook, h1, hat]
  · rcases rest with _ | ⟨l1, _ | ⟨l2, _ | ⟨l3, r3⟩⟩⟩ <;> simp at hjlen
    have h1 : standaloneNum l1 = none := by
      have := hbefore 0 (by omega)
      simpa using this
    have h2 : standaloneNum l2 = none := by
      have := hbefore 1 (by omega)
      simpa using this
    simp only [List.getD_cons_succ, List.getD_cons_zero] at hat
    simp [rpLook, h1, h2, hat]

/-- Claim C4: for a line accepted as a trade row, the total comes from
the first of the following three lines that is a standalone
optionally-signed comma-grouped number other than `"0"`; that line is
consumed (the outer scan resumes past it, whether or not a record is
emitted); and the row yields no record when shares, price or that total
fail numeric resolution. -/
theorem C4_lookahead (cmap : List (String × String)) (sdate : Option String)
    (s : String) (rest : List String) (name ttype sh pr fee : String)
    (j : Nat) (numText : String)
    (hrow : classifyTW s = .row name ttype sh pr fee)
    (hj3 : j < 3) (hjlen : j < rest.length)
    (hbefore : ∀ i, i < j → standaloneNum (rest.getD i "") = none)
    (hat : standaloneNum (rest.getD j "") = some numText) :
    parseLinesTW cmap sdate (s :: rest) =
      emitTW cmap sdate name ttype sh pr fee (toNumTW numText) ++
        parseLinesTW cmap sdate (rest.drop (j + 1)) ∧
    ((toNumTW sh = none ∨ toNumTW pr = none ∨ toNumTW numText = none) →
      parseLinesTW cmap sdate (s :: rest) =
        parseLinesTW cmap sdate (rest.drop (j + 1))) ∧
    (∀ shv prv totv, toNumTW sh = some shv → toNumTW pr = some prv →
      toNumTW numText = some totv →
      parseLinesTW cmap sdate (s :: rest) =
        { symbol := resolveSymbolTW cmap name, trade_type := ttype,
          currency := "TWD", shares := some shv, price := some prv,
          fee := toNumTW fee, date := some (sdate.getD ""),
          total := some totv } :: parseLinesTW cmap sdate (rest.drop (j + 1))) := by
  have hstep : parseLinesTW cmap sdate (s :: rest) =
      emitTW cmap sdate name ttype sh pr fee (toNumTW numText) ++
        parseLinesTW cmap sdate (rest.drop (j + 1)) := by
    rw [parseLinesTW_cons, hrow, rpLook_first rest j numText hj3 hjlen hbefore hat]
    rfl
  refine ⟨hstep, ?_, ?_⟩
  · intro hnone
    rw [hstep]
    have hemit : emitTW cmap sdate name ttype sh pr fee (toNumTW numText) = [] := by
      cases hsh : toNumTW sh <;> cases hpr : toNumTW pr <;>
        cases htot : toNumTW numText <;> simp_all [emitTW]
    rw [hemit, List.nil_append]
  · intro shv prv totv hsh hpr htot
    rw [hstep]
    unfold emitTW
    rw [hsh, hpr, htot]
    rfl

/-- Witness for C4: the lookahead skipping one non-matching line and
consuming `"-1,234"` at offset 1, with an emitted record. -/
theorem C4_lookahead_witness :
    parseLinesTW [] none
        ["台積電 現股買進 1,000 580.00 580,000 58 0", "x y", "-1,234", "z w"] =
      { symbol := "台積電", trade_type := "buy", currency := "TWD",
        shares := some 1000, price := some 580, fee := toNumTW "58",
        date := some "", total := some (-1234) } ::
        parseLinesTW [] none ["z w"] :=
  (C4_lookahead [] none "台積電 現股買進 1,000 580.00 580,000 58 0"
      ["x y", "-1,234", "z w"] "台積電" "buy" "1,000" "580.00" "58" 1 "-1,234"
      (by decide) (by omega) (by decide)
      (by intro i hi; interval_cases i; decide) (by decide)).2.2
    1000 580 (-1234) (by decide) (by decide) (by decide)

/-! ## Claim C9 (Taiwan code-map symbol resolution) — confirmed. -/

/-- Claim C9: an emitted Cathay-TW record's symbol is the code-map image
of the row's security name (the name itself when unmapped), suffixed
with `.TW` exactly when the resolved string is four digits; in
particular the fixture document maps `台積電` to `2330` and emits the
symbol `2330.TW` end to end. -/
theorem C9_tw_symbol :
    (∀ cmap name c, List.find? (fun p => p.1 = name) cmap = some c →
      resolveSymbolTW cmap name =
        (if c.2.length = 4 ∧ c.2.toList.all Char.isDigit then c.2 ++ ".TW" else c.2)) ∧
    (∀ cmap name, List.find? (fun p => p.1 = name) cmap = none →
      resolveSymbolTW cmap name =
        (if name.length = 4 ∧ name.toList.all Char.isDigit then name ++ ".TW" else name)) ∧
    extractCodeMapping twSampleLines = [("台積電", "2330")] ∧
    (parseLinesTW (extractCodeMapping twSampleLines) (some "2025/09/26")
        twSampleLines).map TradeRec.symbol = ["2330.TW"] := by
  refine ⟨?_, ?_, by decide, by decide⟩
  · intro cmap name c h
    unfold resolveSymbolTW
    rw [h]
  · intro cmap name h
    unfold resolveSymbolTW
    rw [h]

/-- Witness for C9: resolution through the concrete one-entry code map
of the claim. -/
theorem C9_tw_symbol_witness :
    resolveSymbolTW [("台積電", "2330")] "台積電" =
      (if ("2330" : String).length = 4 ∧ ("2330" : String).toList.all Char.isDigit
        then "2330" ++ ".TW" else "2330") :=
  C9_tw_symbol.1 [("台積電", "2330")] "台積電" ("台積電", "2330") (by decide)

/-! ## Sorting lemmas for the clusterer claims. -/

theorem insertByKey_perm (key : α → ℚ) (a : α) (l : List α) :
    (insertByKey key a l).Perm (a :: l) := by
  induction l with
  | nil => simp [insertByKey]
  | cons b l ih =>
    unfold insertByKey
    by_cases h : key a ≤ key b
    · rw [if_pos h]
    · rw [if_neg h]
      exact ((ih.cons b).trans (List.Perm.swap a b l))

theorem pySortBy_perm (key : α → ℚ) (xs : List α) :
    (pySortBy key xs).Perm xs := by
  induction xs with
  | nil => simp [pySortBy]
  | cons x xs ih =>
    unfold pySortBy at ih ⊢
    exact (insertByKey_perm key x _).trans (ih.cons x)

theorem mem_insertByKey (key : α → ℚ) (a x : α) (l : List α) :
    x ∈ insertByKey key a l ↔ x ∈ a :: l :=
  (insertByKey_perm key a l).mem_iff

theorem insertByKey_sorted (key : α → ℚ) (a : α) (l : List α)
    (h : List.Pairwise (fun x y => key x ≤ key y) l) :
    List.Pairwise (fun x y => key x ≤ key y) (insertByKey key a l) := by
  induction l with
  | nil => simp [insertByKey]
  | cons b l ih =>
    unfold insertByKey
    by_cases hab : key a ≤ key b
    · rw [if_pos hab]
      refine List.Pairwise.cons ?_ h
      intro x hx
      rcases List.mem_cons.mp hx with rfl | hx
      · exact hab
      · exact le_trans hab (List.rel_of_pairwise_cons h hx)
    · rw [if_neg hab]
      refine List.Pairwise.cons ?_ (ih (List.Pairwise.sublist (by simp) h))
      intro x hx
      rcases List.mem_cons.mp ((mem_insertByKey key a x l).mp hx) with rfl | hx
      · exact le_of_not_le hab
      · exact List.rel_of_pairwise_cons h hx

theorem pySortBy_sorted (key : α → ℚ) (xs : List α) :
    List.Pairwise (fun x y => key x ≤ key y) (pySortBy key xs) := by
  induction xs with
  | nil => simp [pySortBy]
  | cons x xs ih => exact insertByKey_sorted key x _ ih

/-- Two sorted permutations with pairwise-distinct keys coincide. -/
theorem sorted_perm_nodup_eq (key : α → ℚ) (l₁ l₂ : List α)
    (hp : l₁.Perm l₂)
    (hs₁ : List.Pairwise (fun x y => key x ≤ key y) l₁)
    (hs₂ : List.Pairwise (fun x y => key x ≤ key y) l₂)
    (hnd : (l₁.map key).Nodup) : l₁ = l₂ := by
  have hne₁ : List.Pairwise (fun x y => key x ≠ key y) l₁ :=
    (List.pairwise_map.mp hnd)
  have hne₂ : List.Pairwise (fun x y => key x ≠ key y) l₂ :=
    hp.pairwise_iff (fun h => (h ·.symm)) |>.mp hne₁
  have hlt₁ : List.Pairwise (fun x y => key x < key y) l₁ :=
    (hs₁.and hne₁).imp (fun h => lt_of_le_of_ne h.1 h.2)
  have hlt₂ : List.Pairwise (fun x y => key x < key y) l₂ :=
    (hs₂.and hne₂).imp (fun h => lt_of_le_of_ne h.1 h.2)
  haveI : IsAntisymm α (fun x y => key x < key y) :=
    ⟨fun _ _ h1 h2 => absurd h1 (not_lt_of_lt h2)⟩
  exact List.eq_of_perm_of_sorted hp hlt₁ hlt₂

/-! ## Claim C2 (clustering permutation invariance) — corrected. -/

/-- Claim C2 counterexample: the Cathay-TW clusterer (which does not
pre-sort) assigns fragments to different rows under a permutation of the
input, and even the Cathay-US clusterer (stable pre-sort by `top`)
produces different line strings when two fragments share `top` and `x0`.
Both permuted pairs are genuine permutations. -/
theorem C2_counterexample :
    ([⟨"a", 0, 0⟩, ⟨"b", 4, 1⟩, ⟨"c", 2, 2⟩] : List Frag).Perm
        [⟨"b", 4, 1⟩, ⟨"c", 2, 2⟩, ⟨"a", 0, 0⟩] ∧
    extractLinesTWPage [⟨"a", 0, 0⟩, ⟨"b", 4, 1⟩, ⟨"c", 2, 2⟩] = ["a c", "b"] ∧
    extractLinesTWPage [⟨"b", 4, 1⟩, ⟨"c", 2, 2⟩, ⟨"a", 0, 0⟩] = ["b c", "a"] ∧
    ([⟨"A", 0, 0⟩, ⟨"B", 0, 0⟩] : List Frag).Perm [⟨"B", 0, 0⟩, ⟨"A", 0, 0⟩] ∧
    clusterRowsUS [⟨"A", 0, 0⟩, ⟨"B", 0, 0⟩] = ["A B"] ∧
    clusterRowsUS [⟨"B", 0, 0⟩, ⟨"A", 0, 0⟩] = ["B A"] := by
  refine ⟨by decide, by decide, by decide, by decide, by decide, by decide⟩

/-- Claim C2 as amended: the Cathay-US clusterer, which sorts fragments
by vertical position before clustering, gives identical rows and line
strings for any two permutations of a fragment list whose `top` values
are pairwise distinct; the Cathay-TW clusterer iterates in extractor
order and is order-dependent (see the counterexample), as is the line
output of the US clusterer when two fragments coincide in both
coordinates. -/
theorem C2_permutation_invariance (l₁ l₂ : List Frag)
    (hp : l₁.Perm l₂) (hnd : (l₁.map Frag.top).Nodup) :
    clusterRowsUSRows l₁ = clusterRowsUSRows l₂ ∧
      clusterRowsUS l₁ = clusterRowsUS l₂ := by
  have hsorted : pySortBy Frag.top l₁ = pySortBy Frag.top l₂ := by
    refine sorted_perm_nodup_eq Frag.top _ _ ?_ (pySortBy_sorted _ _)
      (pySortBy_sorted _ _) ?_
    · exact (pySortBy_perm Frag.top l₁).trans (hp.trans (pySortBy_perm Frag.top l₂).symm)
    · exact ((pySortBy_perm Frag.top l₁).map Frag.top).nodup_iff.mpr hnd
  constructor
  · unfold clusterRowsUSRows
    rw [hsorted]
  · unfold clusterRowsUS clusterRowsUSRows
    rw [hsorted]

/-- Witness for C2: invariance at a concrete two-fragment permutation
with distinct `top` values. -/
theorem C2_permutation_invariance_witness :
    clusterRowsUS [⟨"a", 0, 0⟩, ⟨"b", 4, 1⟩] =
      clusterRowsUS [⟨"b", 4, 1⟩, ⟨"a", 0, 0⟩] :=
  (C2_permutation_invariance [⟨"a", 0, 0⟩, ⟨"b", 4, 1⟩] [⟨"b", 4, 1⟩, ⟨"a", 0, 0⟩]
    (List.Perm.swap _ _ _) (by decide)).2

/-! ## Claim C3 (row ordering) — corrected. -/

/-- Fragments skip past rows whose tolerance test fails. -/
theorem placeFrag_skip (tolM : ℚ → ℚ → Bool) (w : Frag) (rs l : List Row)
    (h : ∀ r ∈ rs, tolM r.y w.top = false) :
    placeFrag tolM w (rs ++ l) = rs ++ placeFrag tolM w l := by
  induction rs with
  | nil => rfl
  | cons r rs ih =>
    have hr : tolM r.y w.top = false := h r (by simp)
    simp only [List.cons_append, placeFrag, hr]
    simp only [if_false, Bool.false_eq_true, List.append_eq]
    rw [ih (fun r' hr' => h r' (by simp [hr']))]

/-- A row sitting more than the tolerance below the fragment fails the
US tolerance test. -/
theorem usTol_false_of (y t : ℚ) (h : y + 5/2 < t) : usTol y t = false := by
  unfold usTol
  rw [if_pos (by linarith)]
  simp only [decide_eq_false_iff_not, not_le]
  linarith

/-- The incremental mean stays between the old mean and the new value. -/
theorem mean_bounds (y t : ℚ) (n : ℕ) (h : y ≤ t) :
    y ≤ (y * (n : ℚ) + t) / ((n : ℚ) + 1) ∧
      (y * (n : ℚ) + t) / ((n : ℚ) + 1) ≤ t := by
  have hn : (0 : ℚ) < (n : ℚ) + 1 := by positivity
  constructor
  · rw [le_div_iff₀ hn]; nlinarith
  · rw [div_le_iff₀ hn]; nlinarith

/-- One clustering step preserves the invariant, with the new bound
being the placed fragment's `top`. -/
theorem usRowsInv_place (rows : List Row) (lb : ℚ) (w : Frag)
    (hinv : usRowsInv rows lb) (hle : lb ≤ w.top) :
    usRowsInv (placeFrag usTol w rows) w.top := by
  obtain ⟨hpw, hdrop, hmem⟩ := hinv
  rcases List.eq_nil_or_concat rows with rfl | ⟨rs, r, rfl⟩
  · exact ⟨by simp [placeFrag], by simp [placeFrag], by simp [placeFrag]⟩
  · simp only [List.concat_eq_append] at hpw hdrop hmem ⊢
    have hdrop' : ∀ r' ∈ rs, r'.y + 5/2 < lb := by
      intro r' hr'
      exact hdrop r' (by rw [List.dropLast_concat]; exact hr')
    have hskip : ∀ r' ∈ rs, usTol r'.y w.top = false := fun r' hr' =>
      usTol_false_of _ _ (lt_of_lt_of_le (hdrop' r' hr') hle)
    rw [placeFrag_skip usTol w rs [r] hskip]
    have hry : r.y ≤ w.top := le_trans (hmem r (by simp)) hle
    have hpw' : List.Pairwise (fun a b : Row => a.y < b.y) rs ∧
        ∀ a ∈ rs, a.y < r.y := by
      rw [List.pairwise_append] at hpw
      exact ⟨hpw.1, fun a ha => hpw.2.2 a ha r (by simp)⟩
    by_cases hm : usTol r.y w.top = true
    · simp only [placeFrag, hm, if_true]
      obtain ⟨hlo, hhi⟩ := mean_bounds r.y w.top r.n hry
      refine ⟨?_, ?_, ?_⟩
      · rw [List.pairwise_append]
        refine ⟨hpw'.1, by simp, ?_⟩
        intro a ha b hb
        rcases List.mem_singleton.mp hb with rfl
        exact lt_of_lt_of_le (hpw'.2 a ha) hlo
      · rw [List.dropLast_concat]
        intro r' hr'
        exact lt_of_lt_of_le (hdrop' r' hr') hle
      · intro r' hr'
        rcases List.mem_append.mp hr' with h' | h'
        · have h5 := hdrop' r' h'
          linarith
        · rcases List.mem_singleton.mp h' with rfl
          exact hhi
    · have hgap : r.y + 5/2 < w.top := by
        unfold usTol at hm
        by_cases hlt : r.y - w.top < 0
        · rw [if_pos hlt] at hm
          simp only [decide_eq_true_eq] at hm
          push_neg at hm
          linarith
        · rw [if_neg hlt] at hm
          simp only [decide_eq_true_eq] at hm
          push_neg at hm
          linarith
      simp only [placeFrag, hm]
      simp only [Bool.false_eq_true, if_false]
      have hassoc : rs ++ [r, Row.mk w.top 1 [w]] =
          (rs ++ [r]) ++ [Row.mk w.top 1 [w]] := by simp
      refine ⟨?_, ?_, ?_⟩
      · rw [hassoc, List.pairwise_append]
        refine ⟨hpw, by simp, ?_⟩
        intro a ha b hb
        rcases List.mem_singleton.mp hb with rfl
        rcases List.mem_append.mp ha with h' | h'
        · exact lt_trans (hpw'.2 a h') (by linarith)
        · rcases List.mem_singleton.mp h' with rfl
          linarith
      · rw [hassoc, List.dropLast_concat]
        intro r' hr'
        rcases List.mem_append.mp hr' with h' | h'
        · exact lt_of_lt_of_le (hdrop' r' h') hle
        · rcases List.mem_singleton.mp h' with rfl
          exact hgap
      · intro r' hr'
        rw [hassoc] at hr'
        rcases List.mem_append.mp hr' with h' | h'
        · rcases List.mem_append.mp h' with h'' | h''
          · have h5 := hdrop' r' h''
            linarith
          · rcases List.mem_singleton.mp h'' with rfl
            exact hry
        · rcases List.mem_singleton.mp h' with rfl
          exact le_refl _

/-- The clustering fold preserves the invariant over a top-sorted
fragment list. -/
theorem clusterFold_inv :
    ∀ (ws : List Frag) (rows : List Row) (lb : ℚ),
      usRowsInv rows lb → (∀ w ∈ ws, lb ≤ w.top) →
      List.Pairwise (fun a b : Frag => a.top ≤ b.top) ws →
      ∃ lb', usRowsInv (ws.foldl (fun rs w => placeFrag usTol w rs) rows) lb' := by
  intro ws
  induction ws with
  | nil => exact fun rows lb h _ _ => ⟨lb, h⟩
  | cons w ws ih =>
    intro rows lb h hlb hsort
    simp only [List.foldl_cons]
    refine ih (placeFrag usTol w rows) w.top
      (usRowsInv_place rows lb w h (hlb w (by simp))) ?_ hsort.tail
    intro v hv
    exact List.rel_of_pairwise_cons hsort hv

/-- Claim C3 counterexample: the Cathay-TW clusterer emits rows in
creation order, not vertical order — two fragments arriving top-first
produce lines whose representative positions decrease. -/
theorem C3_counterexample :
    (clusterFold twTol [⟨"a", 10, 0⟩, ⟨"b", 0, 0⟩]).map Row.y = [10, 0] ∧
    ¬ List.Sorted (· ≤ ·) ((clusterFold twTol [⟨"a", 10, 0⟩, ⟨"b", 0, 0⟩]).map Row.y) ∧
    extractLinesTWPage [⟨"a", 10, 0⟩, ⟨"b", 0, 0⟩] = ["a", "b"] := by
  refine ⟨by decide, ?_, by decide⟩
  intro h
  rw [show (clusterFold twTol [⟨"a", 10, 0⟩, ⟨"b", 0, 0⟩]).map Row.y = [10, 0]
    from by decide] at h
  have := List.rel_of_sorted_cons h 0 (by simp)
  linarith

/-- Claim C3 as amended: within every flattened row the cells appear in
non-decreasing `x0` order (both clusterers share `rowCells`), and the
Cathay-US clusterer — whose input is pre-sorted by `top` — produces its
rows with strictly increasing (hence non-decreasing) representative
vertical positions; the Cathay-TW clusterer instead emits rows in
first-appearance order, which need not be vertically sorted (see the
counterexample). -/
theorem C3_row_ordering :
    (∀ ws : List Frag,
      List.Sorted (· ≤ ·) ((clusterRowsUSRows ws).map Row.y)) ∧
    (∀ r : Row, List.Pairwise (fun a b : Frag => a.x0 ≤ b.x0) (rowCells r)) := by
  constructor
  · intro ws
    have hsorted := pySortBy_sorted Frag.top ws
    unfold clusterRowsUSRows clusterFold
    rcases hsp : pySortBy Frag.top ws with _ | ⟨w, ws'⟩
    · simp [List.Sorted]
    · rw [hsp] at hsorted
      obtain ⟨lb', hinv⟩ := clusterFold_inv (w :: ws') [] w.top
        ⟨by simp, by simp, by simp⟩
        (by
          intro v hv
          rcases List.mem_cons.mp hv with rfl | hv
          · exact le_refl _
          · exact List.rel_of_pairwise_cons hsorted hv)
        hsorted
      exact List.pairwise_map.mpr (hinv.1.imp le_of_lt)
  · intro r
    exact pySortBy_sorted Frag.x0 r.words

end TxParser